import Mathlib

/-!
Verification of the scheduler entry reader (`internal/runner/entry.go`):
the live registry of DAG heads, the per-tick entry production, the
filesystem-event application loop, and action dispatch.
-/

/-- Instants are minutes since a fixed epoch, chosen as 2024-01-01T00:00:00. -/
abbrev Time := Nat

/-- Modelled from the spec: the parsed cron-style schedule expression held in
`dag.Schedule.Parsed` (package `internal/dag`, outside this core).  A
cron-style expression is represented by its period in minutes and the set of
satisfying residues: instant `t` satisfies the expression iff `t % period`
is one of `offsets`. -/
structure Cron where
  period : Nat
  offsets : List Nat
  deriving DecidableEq, Repr

/-- Whether instant `t` satisfies the cron expression `c`. -/
def Cron.satisfiedAt (c : Cron) (t : Time) : Bool :=
  c.offsets.contains (t % c.period)

/-- Modelled from the spec: `Parsed.Next(now)` (package `internal/dag`,
outside this core) produces the next timestamp strictly after `now` that
satisfies the expression; an expression with no satisfiable future occurrence
yields the deterministic fallback `now` rather than failing. -/
def Cron.next (c : Cron) (now : Time) : Time :=
  match (List.range c.period).find? (fun k => c.satisfiedAt (now + 1 + k)) with
  | some k => now + 1 + k
  | none => now

/-- `dag.Schedule`: one schedule entry carrying its parsed expression. -/
structure Schedule where
  Parsed : Cron
  deriving DecidableEq, Repr

/-- `dag.DAG` head metadata as consumed by the entry reader: a name and the
three schedule groups (the field `Schedule` is declared last only so that the
other fields can refer to the type of the same name). -/
structure DAG where
  Name : String
  StopSchedule : List Schedule
  RestartSchedule : List Schedule
  Schedule : List Schedule
  deriving DecidableEq, Repr

/-- The slice of `admin.Config` the entry reader consumes. -/
structure Config where
  DAGs : String
  deriving DecidableEq, Repr

/-- `EntryType` enumerates the three trigger kinds (entry.go:21-27). -/
inductive EntryType where
  | start
  | stop
  | restart
  deriving DecidableEq, Repr

/-- The concrete `job` struct built by `entryReader.Read` (entry.go:94-98). -/
structure JobVal where
  DAG : DAG
  Config : Config
  Next : Time
  deriving DecidableEq, Repr

/-- `Entry` (entry.go:29-33): one produced action.  `Job` is an interface
value and may be absent (`none`, Go `nil`). -/
structure Entry where
  Next : Time
  Job : Option JobVal
  EntryType : EntryType
  deriving DecidableEq, Repr

/-- Results of the external Job collaborator's methods: `Start`, `Stop` and
`Restart` each return an error (`some e`) or success (`none`); `str` is the
`String()` identity used in the audit log. -/
structure JobBehavior where
  startErr : Option String
  stopErr : Option String
  restartErr : Option String
  str : String
  deriving DecidableEq, Repr

/-- `Entry.Invoke` (entry.go:35-51): return success without touching the Job
when the handle is absent, otherwise dispatch to the Job method matching the
entry's kind and surface its error.  `impl` gives the external Job methods'
results.  The second component records which Job methods were invoked; the
audit log line written before each call is elided. -/
def EntryInvoke (impl : JobVal → JobBehavior) (e : Entry) :
    Option String × List EntryType :=
  match e.Job with
  | none => (none, [])
  | some j =>
    match e.EntryType with
    | EntryType.start => ((impl j).startErr, [EntryType.start])
    | EntryType.stop => ((impl j).stopErr, [EntryType.stop])
    | EntryType.restart => ((impl j).restartErr, [EntryType.restart])

/-- The registry: the Go map `map[string]*dag.DAG` modelled as an association
list in some iteration order; `mapInsert` keeps keys distinct. -/
abbrev Registry := List (String × DAG)

/-- Go map read `m[k]`. -/
def mapLookup (m : Registry) (k : String) : Option DAG :=
  (m.find? (fun p => p.1 == k)).map (fun p => p.2)

/-- Go map assignment `m[k] = v`: replace in place when the key is present,
otherwise append. -/
def mapInsert (m : Registry) (k : String) (v : DAG) : Registry :=
  if m.any (fun p => p.1 == k) then
    m.map (fun p => if p.1 == k then (k, v) else p)
  else m ++ [(k, v)]

/-- Go `delete(m, k)`. -/
def mapErase (m : Registry) (k : String) : Registry :=
  m.filter (fun p => !(p.1 == k))

/-- `filepath.Join(dir, name)` as used in entry.go. -/
def joinPath (dir name : String) : String := dir ++ "/" ++ name

/-- The entry reader's environment: configuration plus the external
collaborators entry.go calls out to — the directory listing `os.ReadDir`,
the extension filter `utils.MatchExtension`, the definition loader
`dag.Loader.LoadHeadOnly` (keyed by the joined path), and `filepath.Base`. -/
structure Env where
  DAGs : String
  readDir : Except String (List String)
  matchExt : String → Bool
  load : String → Except String DAG
  base : String → String

/-- The `entryReader` receiver (entry.go:75-80): admin config, the suspension
predicate (`suspend.SuspendChecker.IsSuspended`, an external collaborator),
and the registry guarded by `dagsLock`. -/
structure EntryReaderState where
  Admin : Config
  isSuspended : DAG → Bool
  dags : Registry

/-- The local closure `f` of `entryReader.Read` (entry.go:89-102), with its
captured accumulator passed explicitly: append to `entries` one entry per
schedule in `s`, with kind `e` and `Next` set to `ss.Parsed.Next(now)`. -/
def readAppendGroup (cfg : Config) (now : Time) (entries : List Entry)
    (d : DAG) (s : List Schedule) (e : EntryType) : List Entry :=
  s.foldl
    (fun acc ss =>
      let next := ss.Parsed.next now
      acc ++ [{ Next := ss.Parsed.next now,
                Job := some { DAG := d, Config := cfg, Next := next },
                EntryType := e }])
    entries

/-- `entryReader.Read` (entry.go:84-114): under the lock, iterate the
registry, skip suspended workflows, and for each expression in each of the
three schedule groups append one entry whose kind matches the group; finally
`return entries, nil`. -/
def entryReaderRead (er : EntryReaderState) (now : Time) :
    List Entry × Option String :=
  let entries :=
    er.dags.foldl
      (fun acc kd =>
        if er.isSuspended kd.2 then acc
        else
          let a1 := readAppendGroup er.Admin now acc kd.2 kd.2.Schedule
            EntryType.start
          let a2 := readAppendGroup er.Admin now a1 kd.2 kd.2.StopSchedule
            EntryType.stop
          readAppendGroup er.Admin now a2 kd.2 kd.2.RestartSchedule
            EntryType.restart)
      []
  (entries, none)

/-- `entryReader.initDags` (entry.go:116-138): read the directory, returning
its error on failure; otherwise, for every listed name with a recognized
extension, load the head, logging and skipping names whose load fails and
inserting the rest keyed by file name; finally log the loaded names and
return nil.  The result carries the updated registry and the log lines. -/
def initDags (env : Env) (reg : Registry) :
    Except String (Registry × List String) :=
  match env.readDir with
  | Except.error e => Except.error e
  | Except.ok fis =>
    let step : Registry × List String × List String → String →
        Registry × List String × List String :=
      fun acc name =>
        if env.matchExt name then
          match env.load (joinPath env.DAGs name) with
          | Except.error e =>
            (acc.1, acc.2.1,
             acc.2.2 ++ ["init dags failed to read dag config: " ++ e])
          | Except.ok d => (mapInsert acc.1 name d, acc.2.1 ++ [name], acc.2.2)
        else acc
    let r := fis.foldl step (reg, [], [])
    Except.ok
      (r.1, r.2.2 ++ ["init scheduler dags: " ++ String.intercalate "," r.2.1])

/-- `fsnotify.Op` as compared against in entry.go (exact equality tests). -/
inductive FsOp where
  | create
  | write
  | remove
  | rename
  | chmod
  deriving DecidableEq, Repr

/-- A filesystem event delivered by the watcher. -/
structure FsEvent where
  Name : String
  Op : FsOp
  deriving DecidableEq, Repr

/-- One iteration of the `watchDags` event-loop body (entry.go:156-173) for a
received event: skip names without a recognized extension; otherwise, under
the lock, on Create/Write reload the head and replace the entry (a failed
load only logs, leaving the map untouched), and on Rename/Remove delete the
entry keyed by the event's base name.  Returns the new registry and logs. -/
def applyEvent (env : Env) (reg : Registry) (ev : FsEvent) :
    Registry × List String :=
  if env.matchExt ev.Name = false then (reg, [])
  else
    let st :=
      if ev.Op = FsOp.create ∨ ev.Op = FsOp.write then
        match env.load (joinPath env.DAGs (env.base ev.Name)) with
        | Except.error e => (reg, ["failed to read dag config: " ++ e])
        | Except.ok d =>
          (mapInsert reg (env.base ev.Name) d, ["reload dag entry " ++ ev.Name])
      else (reg, [])
    if ev.Op = FsOp.rename ∨ ev.Op = FsOp.remove then
      (mapErase st.1 (env.base ev.Name), st.2 ++ ["remove dag entry " ++ ev.Name])
    else st

/-- The observable outcome of `newEntryReader`: the registry it returns, the
log lines emitted, and whether the watcher goroutine was started.  The Go
constructor's return type carries no error. -/
structure ReaderInit where
  dags : Registry
  logs : List String
  watcherStarted : Bool
  deriving DecidableEq, Repr

/-- `newEntryReader` (entry.go:57-73): build the reader with an empty
registry, run `initDags`, on failure only logging
`failed to init entry dags`, then start the watcher goroutine
unconditionally and return the reader. -/
def newEntryReader (env : Env) : ReaderInit :=
  match initDags env [] with
  | Except.ok rl => { dags := rl.1, logs := rl.2, watcherStarted := true }
  | Except.error e =>
    { dags := [], logs := ["failed to init entry dags " ++ e],
      watcherStarted := true }

/-- The entry built by `Read` for dag `d`, kind `e` and schedule `ss`. -/
def mkReadEntry (cfg : Config) (now : Time) (d : DAG) (e : EntryType)
    (ss : Schedule) : Entry :=
  { Next := ss.Parsed.next now,
    Job := some { DAG := d, Config := cfg, Next := ss.Parsed.next now },
    EntryType := e }

/-- The spec's description of entry production for one registry entry
(spec §4.3): nothing for a suspended workflow, otherwise one action per
schedule expression in each of the three groups, with the kind matching the
group and the timestamp the expression's next occurrence after `now`. -/
def entriesForDag (cfg : Config) (susp : DAG → Bool) (now : Time)
    (d : DAG) : List Entry :=
  if susp d then []
  else
    d.Schedule.map (mkReadEntry cfg now d EntryType.start) ++
    d.StopSchedule.map (mkReadEntry cfg now d EntryType.stop) ++
    d.RestartSchedule.map (mkReadEntry cfg now d EntryType.restart)

/-- The spec's description of the whole production call: the per-workflow
emissions concatenated over the registry. -/
def produceSpec (er : EntryReaderState) (now : Time) : List Entry :=
  er.dags.flatMap (fun kd => entriesForDag er.Admin er.isSuspended now kd.2)

/-- The error result of the Job method matching trigger kind `k`. -/
def jobMethodErr (b : JobBehavior) : EntryType → Option String
  | EntryType.start => b.startErr
  | EntryType.stop => b.stopErr
  | EntryType.restart => b.restartErr

/-- Atomic steps of the entry reader, recorded to state lock discipline. -/
inductive Step where
  | lockAcquire
  | lockRelease
  | loaderCall
  | mapWrite
  | mapDelete
  | suspendCheck
  | appendEntry
  deriving DecidableEq, Repr

/-- The steps a `watchDags` loop iteration performs between
`er.dagsLock.Lock()` (entry.go:159) and `er.dagsLock.Unlock()`
(entry.go:173): the loader call, then the map write or delete. -/
def applyEventMid (env : Env) (ev : FsEvent) : List Step :=
  (if ev.Op = FsOp.create ∨ ev.Op = FsOp.write then
    Step.loaderCall ::
      (match env.load (joinPath env.DAGs (env.base ev.Name)) with
       | Except.error _ => []
       | Except.ok _ => [Step.mapWrite])
   else []) ++
  (if ev.Op = FsOp.rename ∨ ev.Op = FsOp.remove then [Step.mapDelete] else [])

/-- Step trace of one `watchDags` loop iteration (entry.go:156-173): the
extension check happens before the lock; everything else, the loader call
included, happens between Lock and Unlock. -/
def applyEventTrace (env : Env) (ev : FsEvent) : List Step :=
  if env.matchExt ev.Name = false then []
  else Step.lockAcquire :: applyEventMid env ev ++ [Step.lockRelease]

/-- The steps `entryReader.Read` performs between `Lock()` (entry.go:86) and
the deferred `Unlock()`: one suspension check per registry entry, then one
append per schedule expression of a non-suspended entry. -/
def readTraceMid (er : EntryReaderState) : List Step :=
  er.dags.flatMap
    (fun kd =>
      Step.suspendCheck ::
        (if er.isSuspended kd.2 then []
         else
           List.replicate
             (kd.2.Schedule.length + kd.2.StopSchedule.length +
               kd.2.RestartSchedule.length)
             Step.appendEntry))

/-- Step trace of `entryReader.Read` (entry.go:84-114). -/
def readTrace (er : EntryReaderState) : List Step :=
  Step.lockAcquire :: readTraceMid er ++ [Step.lockRelease]

/-- Modelled from the spec: the debounced watcher
(`internal/runner/filenotify`, outside this core) collapses the raw events
for one path arriving within one coalescing window to the last event kind
observed for that path, delivered once. -/
def coalesce (evs : List FsEvent) : Option FsEvent := evs.getLast?

/-- Net effect on the registry of a burst of same-path raw events inside one
debounce window: the watcher delivers the coalesced event, if any, and the
`watchDags` loop applies it. -/
def debouncedApply (env : Env) (reg : Registry) (evs : List FsEvent) :
    Registry × List String :=
  match coalesce evs with
  | none => (reg, [])
  | some ev => applyEvent env reg ev

/-- A cron expression with a satisfiable residue, hence a future occurrence
after every instant. -/
abbrev Cron.wellFormed (c : Cron) : Prop := ∃ o ∈ c.offsets, o < c.period

/-- Every schedule expression of every registered DAG is well-formed. -/
abbrev wellFormedState (er : EntryReaderState) : Prop :=
  ∀ kd ∈ er.dags,
    ∀ ss ∈ kd.2.Schedule ++ kd.2.StopSchedule ++ kd.2.RestartSchedule,
      Cron.wellFormed ss.Parsed

/-- The registry entry contributed by one directory-listing name during the
initial scan: present exactly when the extension is recognized and the
loader succeeds. -/
def scanEntry (env : Env) (n : String) : Option (String × DAG) :=
  if env.matchExt n then
    match env.load (joinPath env.DAGs n) with
    | Except.ok d => some (n, d)
    | Except.error _ => none
  else none

/-- The registry after `initDags` (unchanged when the listing failed). -/
def initDagsReg (env : Env) (reg : Registry) : Registry :=
  match initDags env reg with
  | Except.ok rl => rl.1
  | Except.error _ => reg

/-- "Every day at 00:00": with the epoch placed at a midnight, satisfied
exactly at multiples of 1440 minutes. -/
def dailyMidnight : Cron := { period := 1440, offsets := [0] }

/-- Minutes since the epoch (2024-01-01T00:00:00) of a time in January
2024. -/
def jan2024 (day hour minute : Nat) : Time :=
  (day - 1) * 1440 + hour * 60 + minute

/-! ### Helper lemmas -/

theorem readAppendGroup_eq (cfg : Config) (now : Time) (d : DAG)
    (e : EntryType) (s : List Schedule) (entries : List Entry) :
    readAppendGroup cfg now entries d s e
      = entries ++ s.map (mkReadEntry cfg now d e) := by
  induction s generalizing entries with
  | nil => simp [readAppendGroup]
  | cons a t ih =>
    rw [show readAppendGroup cfg now entries d (a :: t) e
          = readAppendGroup cfg now (entries ++ [mkReadEntry cfg now d e a])
              d t e from rfl]
    rw [ih]
    simp

theorem read_foldl_eq (cfg : Config) (susp : DAG → Bool) (now : Time)
    (l : List (String × DAG)) (acc : List Entry) :
    l.foldl
      (fun acc kd =>
        if susp kd.2 then acc
        else
          let a1 := readAppendGroup cfg now acc kd.2 kd.2.Schedule
            EntryType.start
          let a2 := readAppendGroup cfg now a1 kd.2 kd.2.StopSchedule
            EntryType.stop
          readAppendGroup cfg now a2 kd.2 kd.2.RestartSchedule
            EntryType.restart)
      acc
      = acc ++ l.flatMap (fun kd => entriesForDag cfg susp now kd.2) := by
  induction l generalizing acc with
  | nil => simp
  | cons p t ih =>
    rw [List.foldl_cons, ih]
    by_cases hs : susp p.2
    · simp [entriesForDag, hs]
    · simp [entriesForDag, hs, readAppendGroup_eq, List.append_assoc]

theorem read_fst_eq (er : EntryReaderState) (now : Time) :
    (entryReaderRead er now).1 = produceSpec er now := by
  simpa [entryReaderRead, produceSpec] using
    read_foldl_eq er.Admin er.isSuspended now er.dags []

/-! ### Claim theorems -/

/-- C1: `entryReader.Read` emits no action for a workflow whose suspension
predicate holds, and for an unsuspended workflow exactly one action per
schedule expression across the three groups, the kind matching the group and
the timestamp being the expression's next occurrence after `now`: the
produced list is exactly the spec-shaped `produceSpec`. -/
theorem read_produces_per_schedule (er : EntryReaderState) (now : Time) :
    (entryReaderRead er now).1 = produceSpec er now :=
  read_fst_eq er now

/-- C10: `entryReader.Read` always returns a nil error: the production call
has no failure path. -/
theorem read_never_errors (er : EntryReaderState) (now : Time) :
    (entryReaderRead er now).2 = none := rfl

theorem mapLookup_eq_none_iff (m : Registry) (k : String) :
    mapLookup m k = none ↔ ∀ p ∈ m, ¬(p.1 = k) := by
  simp [mapLookup, List.find?_eq_none]

theorem mapErase_of_lookup_none (m : Registry) (k : String)
    (h : mapLookup m k = none) : mapErase m k = m := by
  rw [mapErase, List.filter_eq_self]
  intro p hp
  have hne := (mapLookup_eq_none_iff m k).mp h p hp
  simp [hne]

theorem mapLookup_mapErase_self (m : Registry) (k : String) :
    mapLookup (mapErase m k) k = none := by
  rw [mapLookup_eq_none_iff]
  intro p hp
  have hmem := List.of_mem_filter hp
  simp at hmem
  exact hmem

theorem mapErase_idem (m : Registry) (k : String) :
    mapErase (mapErase m k) k = mapErase m k :=
  mapErase_of_lookup_none _ _ (mapLookup_mapErase_self m k)

/-- C7: `Entry.Invoke` returns success without calling any Job method when
the Job handle is absent; otherwise it calls exactly the Job method matching
the entry's kind and returns that call's error unmodified. -/
theorem invoke_dispatch (impl : JobVal → JobBehavior) (e : Entry) :
    EntryInvoke impl e
      = match e.Job with
        | none => (none, [])
        | some j => (jobMethodErr (impl j) e.EntryType, [e.EntryType]) := by
  cases h : e.Job with
  | none => simp [EntryInvoke, h]
  | some j =>
    cases he : e.EntryType <;> simp [EntryInvoke, jobMethodErr, h, he]

/-- C3: applying a Created or Write event whose reload fails leaves the
registry exactly as it was; a successful reload replaces the entry for the
event's base filename wholesale with the newly loaded head. -/
theorem apply_create_modify (env : Env) (reg : Registry) (ev : FsEvent)
    (hop : ev.Op = FsOp.create ∨ ev.Op = FsOp.write)
    (hext : env.matchExt ev.Name = true) :
    (applyEvent env reg ev).1
      = match env.load (joinPath env.DAGs (env.base ev.Name)) with
        | Except.error _ => reg
        | Except.ok d => mapInsert reg (env.base ev.Name) d := by
  rcases hop with h | h <;> rw [applyEvent] <;> rw [h] <;>
    cases env.load (joinPath env.DAGs (env.base ev.Name)) <;> simp [hext]

/-- C4: a Removed or Renamed event deletes the registry entry keyed by the
event's base filename; deleting an absent key is a no-op with no error, and
applying the same event twice equals applying it once. -/
theorem apply_remove_idempotent (env : Env) (reg : Registry) (ev : FsEvent)
    (hop : ev.Op = FsOp.remove ∨ ev.Op = FsOp.rename)
    (hext : env.matchExt ev.Name = true) :
    (applyEvent env reg ev).1 = mapErase reg (env.base ev.Name) ∧
    (mapLookup reg (env.base ev.Name) = none →
      (applyEvent env reg ev).1 = reg) ∧
    (applyEvent env (applyEvent env reg ev).1 ev).1
      = (applyEvent env reg ev).1 := by
  have h1 : ∀ r : Registry,
      (applyEvent env r ev).1 = mapErase r (env.base ev.Name) := by
    intro r
    rcases hop with h | h <;> rw [applyEvent] <;> rw [h] <;> simp [hext]
  refine ⟨h1 reg, fun hn => ?_, ?_⟩
  · rw [h1 reg]
    exact mapErase_of_lookup_none _ _ hn
  · rw [h1 ((applyEvent env reg ev).1), h1 reg, mapErase_idem]

/-! ### Concrete fixtures for witnesses and counterexamples -/

/-- A concrete DAG head: one start schedule, daily at midnight. -/
def dagA : DAG :=
  { Name := "a", StopSchedule := [], RestartSchedule := [],
    Schedule := [{ Parsed := dailyMidnight }] }

/-- A concrete environment: the listing holds two definition files and one
unrelated file; the loader succeeds on `a.dag` and fails on `b.dag`. -/
def envW : Env :=
  { DAGs := "/dags", readDir := Except.ok ["a.dag", "b.dag", "c.txt"],
    matchExt := fun n => n == "a.dag" || n == "b.dag",
    load := fun p =>
      if p = "/dags/a.dag" then Except.ok dagA
      else Except.error "parse error",
    base := fun s => s }

/-- An environment whose initial directory listing fails. -/
def envFail : Env :=
  { DAGs := "/dags", readDir := Except.error "read dir failed",
    matchExt := fun _ => true, load := fun _ => Except.error "x",
    base := fun s => s }

/-- A reader state holding one suspended DAG. -/
def erSusp : EntryReaderState :=
  { Admin := { DAGs := "/dags" }, isSuspended := fun _ => true,
    dags := [("a.dag", dagA)] }

/-- A reader state holding one unsuspended DAG. -/
def erLive : EntryReaderState :=
  { Admin := { DAGs := "/dags" }, isSuspended := fun _ => false,
    dags := [("a.dag", dagA)] }

/-! ### C5: lock scope -/

/-- C5 counterexample: at a concrete Write event the watch-loop trace
acquires the lock first and only then invokes the Definition Loader, and
`Read`'s suspension check happens between Lock and Unlock — refuting the
claim that parsing happens before acquiring the lock and that the
suspension predicate is consulted without holding it. -/
theorem lock_scope_counterexample :
    applyEventTrace envW { Name := "a.dag", Op := FsOp.write }
      = [Step.lockAcquire, Step.loaderCall, Step.mapWrite,
         Step.lockRelease] ∧
    ¬ ((applyEventTrace envW { Name := "a.dag", Op := FsOp.write }).indexOf
          Step.loaderCall
        < (applyEventTrace envW
            { Name := "a.dag", Op := FsOp.write }).indexOf
          Step.lockAcquire) ∧
    readTrace erSusp
      = [Step.lockAcquire, Step.suspendCheck, Step.lockRelease] := by
  refine ⟨by decide, by decide, by decide⟩

/-- C5 amended: in the `watchDags` loop the lock is acquired before the
Definition Loader is invoked and released only afterwards, and `Read`
consults the Suspension Predicate while holding the registry lock. -/
theorem lock_scope_actual (env : Env) (ev : FsEvent) (er : EntryReaderState)
    (hext : env.matchExt ev.Name = true)
    (hop : ev.Op = FsOp.create ∨ ev.Op = FsOp.write)
    (hne : er.dags ≠ []) :
    applyEventTrace env ev
      = Step.lockAcquire :: applyEventMid env ev ++ [Step.lockRelease] ∧
    Step.loaderCall ∈ applyEventMid env ev ∧
    Step.lockRelease ∉ applyEventMid env ev ∧
    Step.lockAcquire ∉ applyEventMid env ev ∧
    readTrace er
      = Step.lockAcquire :: readTraceMid er ++ [Step.lockRelease] ∧
    Step.suspendCheck ∈ readTraceMid er ∧
    Step.lockRelease ∉ readTraceMid er ∧
    Step.lockAcquire ∉ readTraceMid er := by
  refine ⟨?_, ?_, ?_, ?_, rfl, ?_, ?_, ?_⟩
  · rw [applyEventTrace]
    simp [hext]
  · rcases hop with h | h <;>
      cases hl : env.load (joinPath env.DAGs (env.base ev.Name)) <;>
      simp [applyEventMid, h, hl]
  · rcases hop with h | h <;>
      cases hl : env.load (joinPath env.DAGs (env.base ev.Name)) <;>
      simp [applyEventMid, h, hl]
  · rcases hop with h | h <;>
      cases hl : env.load (joinPath env.DAGs (env.base ev.Name)) <;>
      simp [applyEventMid, h, hl]
  · obtain ⟨kd, t, hd⟩ := List.exists_cons_of_ne_nil hne
    rw [readTraceMid, hd]
    simp
  · intro hmem
    rw [readTraceMid, List.mem_flatMap] at hmem
    obtain ⟨kd, hkd, hk⟩ := hmem
    by_cases hs : er.isSuspended kd.2 <;>
      simp [hs, List.mem_replicate] at hk
  · intro hmem
    rw [readTraceMid, List.mem_flatMap] at hmem
    obtain ⟨kd, hkd, hk⟩ := hmem
    by_cases hs : er.isSuspended kd.2 <;>
      simp [hs, List.mem_replicate] at hk

/-- Witness for the amended C5 at a concrete event and reader state. -/
theorem lock_scope_actual_witness :
    (envW.matchExt "a.dag" = true ∧
      (FsOp.write = FsOp.create ∨ FsOp.write = FsOp.write) ∧
      erSusp.dags ≠ []) ∧
    (applyEventTrace envW { Name := "a.dag", Op := FsOp.write }
        = Step.lockAcquire ::
            applyEventMid envW { Name := "a.dag", Op := FsOp.write }
            ++ [Step.lockRelease] ∧
      Step.loaderCall
        ∈ applyEventMid envW { Name := "a.dag", Op := FsOp.write } ∧
      Step.lockRelease
        ∉ applyEventMid envW { Name := "a.dag", Op := FsOp.write } ∧
      Step.lockAcquire
        ∉ applyEventMid envW { Name := "a.dag", Op := FsOp.write } ∧
      readTrace erSusp
        = Step.lockAcquire :: readTraceMid erSusp ++ [Step.lockRelease] ∧
      Step.suspendCheck ∈ readTraceMid erSusp ∧
      Step.lockRelease ∉ readTraceMid erSusp ∧
      Step.lockAcquire ∉ readTraceMid erSusp) :=
  ⟨⟨by decide, Or.inr rfl, by decide⟩,
    lock_scope_actual envW { Name := "a.dag", Op := FsOp.write } erSusp
      (by decide) (Or.inr rfl) (by decide)⟩

/-! ### C6: construction on a failing directory listing -/

/-- C6 counterexample: with a failing initial directory listing the
constructor still returns a reader (empty registry) and starts the watcher
goroutine; no error reaches its caller — the service proceeds. -/
theorem construction_counterexample :
    envFail.readDir = Except.error "read dir failed" ∧
    (newEntryReader envFail).watcherStarted = true ∧
    (newEntryReader envFail).dags = [] :=
  ⟨rfl, rfl, rfl⟩

/-- C6 amended: when the initial directory listing cannot be read the
constructor only logs the failure and still returns a reader with an empty
registry and the watcher started; the error is not surfaced to the caller
(the constructor has no error result).  A watcher-establishment failure
inside `watchDags` instead terminates the whole process via `log.Fatal`. -/
theorem construction_logs_and_proceeds (env : Env) (e : String)
    (h : env.readDir = Except.error e) :
    newEntryReader env
      = { dags := [], logs := ["failed to init entry dags " ++ e],
          watcherStarted := true } := by
  simp [newEntryReader, initDags, h]

/-- Witness for the amended C6 at the failing environment. -/
theorem construction_logs_witness :
    envFail.readDir = Except.error "read dir failed" ∧
    newEntryReader envFail
      = { dags := [],
          logs := ["failed to init entry dags read dir failed"],
          watcherStarted := true } :=
  ⟨rfl, construction_logs_and_proceeds envFail "read dir failed" rfl⟩

/-! ### C2: the initial scan -/

theorem mapLookup_append_none (m1 m2 : Registry) (k : String)
    (h1 : mapLookup m1 k = none) (h2 : mapLookup m2 k = none) :
    mapLookup (m1 ++ m2) k = none := by
  rw [mapLookup_eq_none_iff] at h1 h2 ⊢
  intro p hp
  rcases List.mem_append.mp hp with h | h
  · exact h1 p h
  · exact h2 p h

theorem mapInsert_of_lookup_none (m : Registry) (k : String) (v : DAG)
    (h : mapLookup m k = none) : mapInsert m k v = m ++ [(k, v)] := by
  have ha : m.any (fun p => p.1 == k) = false := by
    rw [List.any_eq_false]
    intro p hp
    have hne := (mapLookup_eq_none_iff m k).mp h p hp
    simpa using hne
  rw [mapInsert, ha]
  simp

theorem initFold_eq (env : Env) (files : List String)
    (reg0 : Registry) (fns0 logs0 : List String)
    (hnd : files.Nodup)
    (h0 : ∀ n ∈ files, mapLookup reg0 n = none) :
    (files.foldl
      (fun acc name =>
        if env.matchExt name then
          match env.load (joinPath env.DAGs name) with
          | Except.error e =>
            (acc.1, acc.2.1,
             acc.2.2 ++ ["init dags failed to read dag config: " ++ e])
          | Except.ok d =>
            (mapInsert acc.1 name d, acc.2.1 ++ [name], acc.2.2)
        else acc)
      (reg0, fns0, logs0)).1
      = reg0 ++ files.filterMap (scanEntry env) := by
  induction files generalizing reg0 fns0 logs0 with
  | nil => simp
  | cons n t ih =>
    have hnd1 : n ∉ t := (List.nodup_cons.mp hnd).1
    have hnd2 : t.Nodup := (List.nodup_cons.mp hnd).2
    have h0n : mapLookup reg0 n = none := h0 n (List.mem_cons_self n t)
    rw [List.foldl_cons]
    by_cases hm : env.matchExt n
    · cases hl : env.load (joinPath env.DAGs n) with
      | error e =>
        simp only [hm, if_true, hl]
        rw [ih reg0 fns0
          (logs0 ++ ["init dags failed to read dag config: " ++ e]) hnd2
          (fun m hmem => h0 m (List.mem_cons_of_mem n hmem))]
        simp [List.filterMap_cons, scanEntry, hm, hl]
      | ok d =>
        simp only [hm, if_true, hl]
        rw [mapInsert_of_lookup_none reg0 n d h0n]
        rw [ih (reg0 ++ [(n, d)]) (fns0 ++ [n]) logs0 hnd2 ?side]
        · simp [List.filterMap_cons, scanEntry, hm, hl]
        case side =>
          intro m hmem
          refine mapLookup_append_none reg0 [(n, d)] m
            (h0 m (List.mem_cons_of_mem n hmem)) ?_
          rw [mapLookup_eq_none_iff]
          intro p hp
          rw [List.mem_singleton.mp hp]
          intro hcontra
          have hnm : n = m := hcontra
          exact hnd1 (by rw [hnm]; exact hmem)
    · rw [if_neg hm]
      rw [ih reg0 fns0 logs0 hnd2
        (fun m hmem => h0 m (List.mem_cons_of_mem n hmem))]
      simp [List.filterMap_cons, scanEntry, hm]

/-- C2: with a readable directory listing of distinct names, the initial
scan returns no error, and the resulting registry holds exactly one entry,
keyed by base filename, for each listed name whose extension is recognized
and whose load succeeds — a malformed file contributes no entry and does not
abort the scan. -/
theorem initDags_scan (env : Env) (files : List String)
    (h1 : env.readDir = Except.ok files) (h2 : files.Nodup) :
    (initDags env []).isOk = true ∧
    initDagsReg env [] = files.filterMap (scanEntry env) := by
  have hfold := initFold_eq env files [] [] [] h2 (fun n _ => rfl)
  constructor
  · rw [initDags, h1]
    rfl
  · rw [initDagsReg, initDags, h1]
    simpa using hfold

/-- Witness for C2: the scan of `envW` succeeds, registers `a.dag`, skips
the malformed `b.dag` and the unrecognized `c.txt`. -/
theorem initDags_scan_witness :
    envW.readDir = Except.ok ["a.dag", "b.dag", "c.txt"] ∧
    (["a.dag", "b.dag", "c.txt"] : List String).Nodup ∧
    (initDags envW []).isOk = true ∧
    initDagsReg envW [] = [("a.dag", dagA)] := by
  have h := initDags_scan envW ["a.dag", "b.dag", "c.txt"] rfl (by decide)
  refine ⟨rfl, by decide, h.1, ?_⟩
  rw [h.2]
  decide

/-! ### C8: the next occurrence is strictly after now -/

theorem cron_mod_key (p o r : Nat) (hlt : o < p) (hr : r < p) :
    (r + (o + p - r) % p) % p = o := by
  rcases le_or_lt r o with h | h
  · have e1 : o + p - r = o - r + p := by omega
    rw [e1, Nat.add_mod_right, Nat.mod_eq_of_lt (show o - r < p by omega)]
    have e2 : r + (o - r) = o := by omega
    rw [e2, Nat.mod_eq_of_lt hlt]
  · rw [Nat.mod_eq_of_lt (show o + p - r < p by omega)]
    have e2 : r + (o + p - r) = o + p := by omega
    rw [e2, Nat.add_mod_right, Nat.mod_eq_of_lt hlt]

theorem cron_next_of_wellFormed (c : Cron) (hwf : c.wellFormed)
    (now : Time) :
    now < c.next now ∧ c.satisfiedAt (c.next now) = true := by
  obtain ⟨o, ho, hlt⟩ := hwf
  have hp : 0 < c.period := Nat.lt_of_le_of_lt (Nat.zero_le o) hlt
  have hr : (now + 1) % c.period < c.period := Nat.mod_lt _ hp
  have hk : (o + c.period - (now + 1) % c.period) % c.period < c.period :=
    Nat.mod_lt _ hp
  have hsat : c.satisfiedAt
      (now + 1 + (o + c.period - (now + 1) % c.period) % c.period)
      = true := by
    rw [Cron.satisfiedAt]
    have e1 : (now + 1 + (o + c.period - (now + 1) % c.period) % c.period)
        % c.period = o := by
      rw [Nat.add_mod, Nat.mod_eq_of_lt hk]
      exact cron_mod_key c.period o ((now + 1) % c.period) hlt hr
    rw [e1]
    simpa using ho
  cases hfind : (List.range c.period).find?
      (fun k => c.satisfiedAt (now + 1 + k)) with
  | none =>
    exfalso
    have hall := List.find?_eq_none.mp hfind
    exact absurd hsat (by simpa using hall _ (List.mem_range.mpr hk))
  | some k =>
    have hkprop := List.find?_some hfind
    constructor
    · rw [Cron.next, hfind]
      show now < now + 1 + k
      exact Nat.lt_add_right k (Nat.lt_succ_self now)
    · rw [Cron.next, hfind]
      show c.satisfiedAt (now + 1 + k) = true
      simpa using hkprop

/-- C8: a well-formed expression's computed next timestamp is strictly after
`now` and satisfies the expression; every action emitted by `Read` over a
registry of well-formed expressions carries such a timestamp; and for
"every day at 00:00" with now = 2024-01-01T12:00:00 the next occurrence is
2024-01-02T00:00:00. -/
theorem next_strictly_after (c : Cron) (now : Time) (hwf : c.wellFormed)
    (er : EntryReaderState) (hstate : wellFormedState er) :
    now < c.next now ∧ c.satisfiedAt (c.next now) = true ∧
    (∀ en ∈ (entryReaderRead er now).1, now < en.Next) ∧
    Cron.next dailyMidnight (jan2024 1 12 0) = jan2024 2 0 0 := by
  refine ⟨(cron_next_of_wellFormed c hwf now).1,
          (cron_next_of_wellFormed c hwf now).2, ?_, ?_⟩
  · intro en hen
    rw [read_fst_eq, produceSpec, List.mem_flatMap] at hen
    obtain ⟨kd, hkd, hmem⟩ := hen
    rw [entriesForDag] at hmem
    by_cases hs : er.isSuspended kd.2 <;> simp [hs] at hmem
    rcases hmem with ⟨ss, hss, hrfl⟩ | ⟨ss, hss, hrfl⟩ | ⟨ss, hss, hrfl⟩ <;>
      rw [← hrfl] <;>
      exact (cron_next_of_wellFormed _
        (hstate kd hkd ss (by simp [hss])) now).1
  · set_option maxRecDepth 100000 in decide

/-- Witness for C8 at "every day at 00:00", now = 2024-01-01T12:00:00, and
a one-DAG unsuspended reader state. -/
theorem next_strictly_after_witness :
    (dailyMidnight.wellFormed ∧ wellFormedState erLive) ∧
    (jan2024 1 12 0 < dailyMidnight.next (jan2024 1 12 0) ∧
      dailyMidnight.satisfiedAt (dailyMidnight.next (jan2024 1 12 0))
        = true ∧
      (∀ en ∈ (entryReaderRead erLive (jan2024 1 12 0)).1,
        jan2024 1 12 0 < en.Next) ∧
      Cron.next dailyMidnight (jan2024 1 12 0) = jan2024 2 0 0) :=
  ⟨⟨by decide, by decide⟩,
    next_strictly_after dailyMidnight (jan2024 1 12 0) (by decide)
      erLive (by decide)⟩

/-! ### C9: debounced bursts -/

/-- C9: a burst of same-path raw events within one debounce window has
exactly one net effect on the registry — that of the final event kind — and
a Created immediately followed by a Removed within the window leaves no
registry entry for that path. -/
theorem debounce_last_event (env : Env) (reg : Registry)
    (evs : List FsEvent) (hne : evs ≠ [])
    (name : String) (hext : env.matchExt name = true) :
    debouncedApply env reg evs = applyEvent env reg (evs.getLast hne) ∧
    mapLookup
      (debouncedApply env reg
        [{ Name := name, Op := FsOp.create },
         { Name := name, Op := FsOp.remove }]).1
      (env.base name) = none := by
  constructor
  · rw [debouncedApply, coalesce, List.getLast?_eq_getLast evs hne]
  · have hc : coalesce
        [{ Name := name, Op := FsOp.create },
         { Name := name, Op := FsOp.remove }]
        = some { Name := name, Op := FsOp.remove } := rfl
    rw [debouncedApply, hc]
    show mapLookup
      (applyEvent env reg { Name := name, Op := FsOp.remove }).1
      (env.base name) = none
    have h1 : (applyEvent env reg { Name := name, Op := FsOp.remove }).1
        = mapErase reg (env.base name) := by
      rw [applyEvent]
      simp [hext]
    rw [h1]
    exact mapLookup_mapErase_self reg (env.base name)

/-- Witness for C9: a Created-then-Removed burst for `a.dag`. -/
theorem debounce_last_event_witness :
    (([{ Name := "a.dag", Op := FsOp.create },
       { Name := "a.dag", Op := FsOp.remove }] : List FsEvent) ≠ [] ∧
      envW.matchExt "a.dag" = true) ∧
    (debouncedApply envW [("a.dag", dagA)]
        [{ Name := "a.dag", Op := FsOp.create },
         { Name := "a.dag", Op := FsOp.remove }]
      = applyEvent envW [("a.dag", dagA)]
          { Name := "a.dag", Op := FsOp.remove } ∧
      mapLookup
        (debouncedApply envW [("a.dag", dagA)]
          [{ Name := "a.dag", Op := FsOp.create },
           { Name := "a.dag", Op := FsOp.remove }]).1
        (envW.base "a.dag") = none) :=
  ⟨⟨by decide, by decide⟩,
    debounce_last_event envW [("a.dag", dagA)]
      [{ Name := "a.dag", Op := FsOp.create },
       { Name := "a.dag", Op := FsOp.remove }]
      (by decide) "a.dag" (by decide)⟩

/-- Witness for C3: a Write event for `a.dag` whose reload succeeds replaces
the entry wholesale. -/
theorem apply_create_modify_witness :
    ((FsOp.write = FsOp.create ∨ FsOp.write = FsOp.write) ∧
      envW.matchExt "a.dag" = true) ∧
    (applyEvent envW [] { Name := "a.dag", Op := FsOp.write }).1
      = [("a.dag", dagA)] := by
  refine ⟨⟨Or.inr rfl, by decide⟩, ?_⟩
  have h := apply_create_modify envW []
    { Name := "a.dag", Op := FsOp.write } (Or.inr rfl) (by decide)
  rw [h]
  decide

/-- Witness for C4: removing `b.dag`, a key not present, is a no-op and
idempotent. -/
theorem apply_remove_idempotent_witness :
    ((FsOp.remove = FsOp.remove ∨ FsOp.remove = FsOp.rename) ∧
      envW.matchExt "b.dag" = true) ∧
    ((applyEvent envW [("a.dag", dagA)]
          { Name := "b.dag", Op := FsOp.remove }).1
        = mapErase [("a.dag", dagA)] (envW.base "b.dag") ∧
      (mapLookup [("a.dag", dagA)] (envW.base "b.dag") = none →
        (applyEvent envW [("a.dag", dagA)]
          { Name := "b.dag", Op := FsOp.remove }).1 = [("a.dag", dagA)]) ∧
      (applyEvent envW
          (applyEvent envW [("a.dag", dagA)]
            { Name := "b.dag", Op := FsOp.remove }).1
          { Name := "b.dag", Op := FsOp.remove }).1
        = (applyEvent envW [("a.dag", dagA)]
            { Name := "b.dag", Op := FsOp.remove }).1) :=
  ⟨⟨Or.inl rfl, by decide⟩,
    apply_remove_idempotent envW [("a.dag", dagA)]
      { Name := "b.dag", Op := FsOp.remove } (Or.inl rfl) (by decide)⟩
